import Mathlib

/-!
Verification development for the `mongo_odm` / `motor_odm` repository:
a shallow embedding of the query-builder, document-materialization and
configuration logic of the two ODM generations contained in the repository,
together with theorems settling the specification claims about them.

Conventions:
* Python dictionaries are embedded as association lists with unique keys
  (first-match lookup, insertion-ordered update).
* BSON values are embedded as the inductive `BVal`; the native `ObjectId`
  is carried as its 24-hex-character string form.
* Python exceptions are embedded as the enumeration `Exc`; a function that
  can raise returns `Except Exc _` (or pairs its result with `Option Exc`
  when partial state updates before the raise matter).
* Stateful methods are embedded by explicit state passing: a method that can
  mutate its receiver returns the updated receiver alongside its result.
* The MongoDB server / driver (an external collaborator of the repository)
  is embedded as an explicit list-of-records store with the documented
  find / projection / replace-one / insert-one semantics.
-/

/-- Exception classes of the repository (`exceptions.py`) plus the external
exceptions that can escape from the embedded code paths
(`bson.errors.InvalidId`, Python `TypeError`, and the MongoDB server error
for a projection mixing inclusion and exclusion). -/
inductive Exc where
  | improperlyConfigured
  | invalidFieldType
  | invalidCollectionName
  | invalidFieldName
  | documentDoesNotExist
  | primaryKeyCantBeExcluded
  | fieldNotFoundOnDocument
  | bsonInvalidId
  | typeError
  | mixedProjectionServerError
deriving DecidableEq, Repr

/-- BSON values as stored in records and used in filters.  `oid s` is the
native `ObjectId` identified by its 24-hex-character string form; `doc` is a
nested document (a mapping). -/
inductive BVal where
  | null
  | nat (n : Nat)
  | str (s : String)
  | oid (s : String)
  | doc (m : List (String × BVal))
deriving Repr

mutual

def BVal.decEq : (a b : BVal) → Decidable (a = b)
  | .null, .null => isTrue rfl
  | .nat n, .nat m =>
    match Nat.decEq n m with
    | isTrue h => isTrue (by rw [h])
    | isFalse h => isFalse (fun hh => h (by cases hh; rfl))
  | .str a, .str b =>
    match String.decEq a b with
    | isTrue h => isTrue (by rw [h])
    | isFalse h => isFalse (fun hh => h (by cases hh; rfl))
  | .oid a, .oid b =>
    match String.decEq a b with
    | isTrue h => isTrue (by rw [h])
    | isFalse h => isFalse (fun hh => h (by cases hh; rfl))
  | .doc a, .doc b =>
    match BVal.decEqFields a b with
    | isTrue h => isTrue (by rw [h])
    | isFalse h => isFalse (fun hh => h (by cases hh; rfl))
  | .null, .nat _ => isFalse nofun
  | .null, .str _ => isFalse nofun
  | .null, .oid _ => isFalse nofun
  | .null, .doc _ => isFalse nofun
  | .nat _, .null => isFalse nofun
  | .nat _, .str _ => isFalse nofun
  | .nat _, .oid _ => isFalse nofun
  | .nat _, .doc _ => isFalse nofun
  | .str _, .null => isFalse nofun
  | .str _, .nat _ => isFalse nofun
  | .str _, .oid _ => isFalse nofun
  | .str _, .doc _ => isFalse nofun
  | .oid _, .null => isFalse nofun
  | .oid _, .nat _ => isFalse nofun
  | .oid _, .str _ => isFalse nofun
  | .oid _, .doc _ => isFalse nofun
  | .doc _, .null => isFalse nofun
  | .doc _, .nat _ => isFalse nofun
  | .doc _, .str _ => isFalse nofun
  | .doc _, .oid _ => isFalse nofun

def BVal.decEqFields : (a b : List (String × BVal)) → Decidable (a = b)
  | [], [] => isTrue rfl
  | [], _ :: _ => isFalse nofun
  | _ :: _, [] => isFalse nofun
  | (k, v) :: r, (k', v') :: r' =>
    match String.decEq k k', BVal.decEq v v', BVal.decEqFields r r' with
    | isTrue h1, isTrue h2, isTrue h3 => isTrue (by rw [h1, h2, h3])
    | isFalse h1, _, _ => isFalse (fun hh => h1 (by cases hh; rfl))
    | _, isFalse h2, _ => isFalse (fun hh => h2 (by cases hh; rfl))
    | _, _, isFalse h3 => isFalse (fun hh => h3 (by cases hh; rfl))

end

instance : DecidableEq BVal := BVal.decEq

/-- First-match lookup in an association list (Python `dict` access; keys of
an embedded dict are unique so the first match is the match). -/
def lookupKey (rec : List (String × BVal)) (k : String) : Option BVal :=
  match rec with
  | [] => none
  | (k', v) :: rest => if k' = k then some v else lookupKey rest k

/-- A raw wire record: a field-name-to-value mapping. -/
abbrev Rec := List (String × BVal)

theorem dropWhile_length_le (p : Char → Bool) :
    ∀ l : List Char, (l.dropWhile p).length ≤ l.length := by
  intro l
  induction l with
  | nil => simp [List.dropWhile]
  | cons c rest ih =>
    simp only [List.dropWhile]
    cases h : p c
    · simp
    · simpa using Nat.le_succ_of_le ih

namespace MongoOdmUtils

/-- ASCII uppercase test (the `[A-Z]` character class). -/
def isUpperAZ (c : Char) : Bool := 'A' ≤ c && c ≤ 'Z'

/-- ASCII lowercase test (the `[a-z]` character class). -/
def isLowerAZ (c : Char) : Bool := 'a' ≤ c && c ≤ 'z'

/-- The `[a-z0-9]` character class. -/
def isLowerOrDigit (c : Char) : Bool := isLowerAZ c || ('0' ≤ c && c ≤ '9')

/-- Left-to-right, non-overlapping substitution for the Python regex
`re.sub("(.)([A-Z][a-z]+)", r"\1_\2", s)` from `utils.to_snake_case`:
any character followed by an uppercase letter and a maximal (greedy)
nonempty run of lowercase letters gets an underscore inserted after the
first character; scanning resumes after the matched run. -/
def subCapLower : List Char → List Char
  | [] => []
  | [c] => [c]
  | [c1, c2] => [c1, c2]
  | c1 :: c2 :: c3 :: rest =>
    if isUpperAZ c2 && isLowerAZ c3 then
      c1 :: '_' :: c2 :: (c3 :: rest).takeWhile isLowerAZ
        ++ subCapLower ((c3 :: rest).dropWhile isLowerAZ)
    else
      c1 :: subCapLower (c2 :: c3 :: rest)
termination_by l => l.length
decreasing_by
  · simp only [List.length_cons]
    have h := dropWhile_length_le isLowerAZ (c3 :: rest)
    simp only [List.length_cons] at h
    omega
  · simp only [List.length_cons]
    omega

/-- Left-to-right, non-overlapping substitution for the Python regex
`re.sub("([a-z0-9])([A-Z])", r"\1_\2", s)` from `utils.to_snake_case`:
a lowercase letter or digit followed by an uppercase letter gets an
underscore inserted between them; scanning resumes after the match. -/
def subLowerCap : List Char → List Char
  | [] => []
  | [c] => [c]
  | c1 :: c2 :: rest =>
    if isLowerOrDigit c1 && isUpperAZ c2 then
      c1 :: '_' :: c2 :: subLowerCap rest
    else
      c1 :: subLowerCap (c2 :: rest)

/-- ASCII lowering of a character (Python `str.lower` on identifier text). -/
def pyLower (c : Char) : Char :=
  if isUpperAZ c then Char.ofNat (c.toNat + 32) else c

/-- `utils.to_snake_case`: apply the two regex substitutions, then lowercase. -/
def to_snake_case (s : String) : String :=
  String.mk ((subLowerCap (subCapLower s.data)).map pyLower)

/-- `utils.validate_collection_name`: rejects names containing a dollar sign,
empty names, and names starting with the reserved prefix. -/
def validate_collection_name (collection_name : String) : Option Exc :=
  if collection_name.data.any (· = '$') then some .invalidCollectionName
  else if collection_name = "" then some .invalidCollectionName
  else if collection_name.startsWith "system." then some .invalidCollectionName
  else none

end MongoOdmUtils

namespace MongoOdmConfig

/-- The module-level mutable state of `config.py`: the stored motor client
(abstracted to a `Nat` handle) and the stored database name. -/
structure ConfigState where
  motorClient : Option Nat
  dbName : Option String
deriving DecidableEq, Repr

/-- The state before `configure` was ever called: both globals are `None`. -/
def initialConfig : ConfigState := ⟨none, none⟩

/-- `config.configure`: validates and stores the client, then validates and
stores the database name.  The client assignment happens before the database
name is inspected, so a `None` database name raises `ImproperlyConfigured`
with the client already stored.  Returns the state after the call together
with the exception raised, if any. -/
def configure (st : ConfigState) (motor_client : Option Nat)
    (db_name : Option String) : ConfigState × Option Exc :=
  match motor_client with
  | none => (st, some .improperlyConfigured)
  | some c =>
    let st1 : ConfigState := { st with motorClient := some c }
    match db_name with
    | none => (st1, some .improperlyConfigured)
    | some d => ({ st1 with dbName := some d }, none)

/-- `config.get_motor_client`: raises `ImproperlyConfigured` when no client
has been stored. -/
def get_motor_client (st : ConfigState) : Except Exc Nat :=
  match st.motorClient with
  | none => .error .improperlyConfigured
  | some c => .ok c

/-- `config.get_db_name`: raises `ImproperlyConfigured` when no database name
has been stored. -/
def get_db_name (st : ConfigState) : Except Exc String :=
  match st.dbName with
  | none => .error .improperlyConfigured
  | some d => .ok d

end MongoOdmConfig

namespace MongoOdmFields

/-- Hexadecimal digit test, as accepted by `bson.ObjectId` for its
24-character string form. -/
def isHexDigitChar (c : Char) : Bool :=
  ('0' ≤ c && c ≤ '9') || ('a' ≤ c && c ≤ 'f') || ('A' ≤ c && c ≤ 'F')

/-- Validity of a string as a `bson.ObjectId` argument: exactly 24
hexadecimal characters (`bson.ObjectId.__validate`). -/
def isValidObjectIdString (s : String) : Bool :=
  s.length = 24 && s.data.all isHexDigitChar

/-- Python `str(v)` for the embedded values, as used by
`PrimaryID.validate`'s `ObjectId(str(v))` call. -/
def pyStr (v : BVal) : String :=
  match v with
  | .null => "None"
  | .nat n => toString n
  | .str s => s
  | .oid s => s
  | .doc _ => "dict"

/-- `fields.PrimaryID.validate`: a native `ObjectId` that passes `is_valid`
is returned as-is; anything else is pushed through `ObjectId(str(v))`,
and the `bson.errors.InvalidId` it raises for a malformed string is
converted into the repository's `InvalidFieldType`. -/
def PrimaryID.validate (v : BVal) : Except Exc BVal :=
  match v with
  | .oid s => .ok (.oid s)
  | v =>
    if isValidObjectIdString (pyStr v) then .ok (.oid (pyStr v))
    else .error .invalidFieldType

/-- `bson.ObjectId.is_valid` on an embedded value: true for a native
`ObjectId` and for a 24-hex-character string; false for everything else
(external collaborator, modelled at its documented interface). -/
def objectIdIsValid (v : BVal) : Bool :=
  match v with
  | .oid _ => true
  | .str s => isValidObjectIdString s
  | _ => false

/-- Python truthiness of an embedded value, as used by `if self.id and ...`
in `MongoDocument.save` (`None`, `0`, `""` and `{}` are falsy). -/
def pyTruthy (v : BVal) : Bool :=
  match v with
  | .null => false
  | .nat n => n ≠ 0
  | .str s => s ≠ ""
  | .oid _ => true
  | .doc m => m ≠ []

end MongoOdmFields

namespace MongoOdmDocuments

open MongoOdmUtils MongoOdmConfig

/-- The optional `Meta` inner class of a document type: each attribute is
`none` when the attribute is not present on the class (so `getattr` falls
back) and `some v` when it is present with value `v` (which itself may be
the Python `None`, embedded as `some none`). -/
structure MetaCls where
  collection_name : Option (Option String)
  db_name : Option (Option String)
deriving Repr

/-- `MongoDocumentBaseMetaData._get_config`: the collection name defaults to
the snake-case form of the document class name and the database name to the
process-wide configured name; an explicit `Meta` class overrides either.
A non-`None` collection name is validated.  `get_db_name` is consulted
unconditionally, so an unconfigured database raises first. -/
def _get_config (st : ConfigState) (meta_cls : Option MetaCls)
    (document_class_name : String) : Except Exc (Option String × Option String) := do
  let collection_name : Option String := some (to_snake_case document_class_name)
  let db_name : Option String ← (get_db_name st).map some
  match meta_cls with
  | none => pure (collection_name, db_name)
  | some Meta =>
    let collection_name := Meta.collection_name.getD collection_name
    let db_name := Meta.db_name.getD db_name
    match collection_name with
    | some cn =>
      match validate_collection_name cn with
      | some e => throw e
      | none => pure (some cn, db_name)
    | none => pure (none, db_name)

/-- A value found by `lookupKey` is structurally smaller than the record it
came from (termination measure for recursive materialization). -/
theorem lookupKey_sizeOf_lt (rec : Rec) (k : String) (v : BVal)
    (h : lookupKey rec k = some v) : sizeOf v < sizeOf rec := by
  induction rec with
  | nil => simp [lookupKey] at h
  | cons p rest ih =>
    obtain ⟨k', v'⟩ := p
    simp only [lookupKey] at h
    split at h
    · cases h
      simp only [Prod.mk.sizeOf_spec, List.cons.sizeOf_spec]
      omega
    · have := ih h
      simp only [Prod.mk.sizeOf_spec, List.cons.sizeOf_spec]
      omega

/-- One entry of a document type's schema descriptor
(`__fields_without_managers__` of `documents.py`): the field name, its wire
alias (`field.alias`), the required flag, the declared default
(`field.get_default()`), and — when the declared outer type is itself a
document type, i.e. has a `construct` attribute — the nested schema. -/
inductive FieldSpec where
  | mk (name : String) (wireAlias : String) (required : Bool) (dflt : BVal)
       (nested : Option (List FieldSpec))

def FieldSpec.name : FieldSpec → String
  | .mk n _ _ _ _ => n

def FieldSpec.wireAlias : FieldSpec → String
  | .mk _ a _ _ _ => a

def FieldSpec.required : FieldSpec → Bool
  | .mk _ _ r _ _ => r

def FieldSpec.dflt : FieldSpec → BVal
  | .mk _ _ _ d _ => d

def FieldSpec.nested : FieldSpec → Option (List FieldSpec)
  | .mk _ _ _ _ s => s

/-- `MongoDocument.construct` (`documents.py`), the non-validating
materializer.  For each schema field in declaration order:
if the raw mapping contains the field's wire alias, a document-typed field
recursively materializes the raw mapping found there (a non-mapping raw
value for a document-typed field makes Python's `**` unpacking raise
`TypeError`, which the `except AttributeError` clause does not catch);
a plain field keeps the raw value unless it is `None` and the field is not
required, in which case the declared default is used; if the raw mapping
does not contain the alias, the declared default is used. -/
def construct : List FieldSpec → Rec → Except Exc Rec
  | [], _ => .ok []
  | .mk name wireAlias required dflt nested :: rest, values =>
    match h : lookupKey values wireAlias with
    | none => (construct rest values).map (fun tail => (name, dflt) :: tail)
    | some rv =>
      match nested with
      | some sub =>
        match hv : rv with
        | .doc m => do
            let nestedDoc ← construct sub m
            let tail ← construct rest values
            pure ((name, BVal.doc nestedDoc) :: tail)
        | _ => .error .typeError
      | none =>
        let v := if rv = BVal.null ∧ required = false then dflt else rv
        (construct rest values).map (fun tail => (name, v) :: tail)
termination_by s values => (sizeOf values, sizeOf s)
decreasing_by
  · apply Prod.Lex.right
    simp only [List.cons.sizeOf_spec]
    omega
  · apply Prod.Lex.left
    have h1 := lookupKey_sizeOf_lt values wireAlias _ h
    subst hv
    simp only [BVal.doc.sizeOf_spec] at h1
    omega
  · apply Prod.Lex.right
    simp only [List.cons.sizeOf_spec]
    omega
  · apply Prod.Lex.right
    simp only [List.cons.sizeOf_spec]
    omega

end MongoOdmDocuments

/-- Effectful map over a list in the `Except` monad, failing at the first
error (the loop body of `MongoCursor.to_list`). -/
def mapMExcept (f : α → Except Exc β) : List α → Except Exc (List β)
  | [] => .ok []
  | a :: rest => do
    let b ← f a
    let tail ← mapMExcept f rest
    pure (b :: tail)

namespace MongoStore

/-- Equality-match filter evaluation of the external store: a record matches
when every filter key is present with the filter's value (the claims only
exercise equality filters). -/
def matchesFilter (fil : Rec) (rec : Rec) : Bool :=
  fil.all (fun kv => lookupKey rec kv.1 == some kv.2)

/-- First-match lookup in a projection dict. -/
def lookupProj (proj : List (String × Nat)) (k : String) : Option Nat :=
  match proj with
  | [] => none
  | (k', v) :: rest => if k' = k then some v else lookupProj rest k

/-- Projection application of the external store, at its documented
interface: a projection mixing inclusion (non-zero) and exclusion (zero) of
non-identifier fields is rejected by the server; an inclusion projection
keeps exactly the included keys plus `_id` (unless `_id` is explicitly
excluded); an exclusion projection drops exactly the listed keys. -/
def applyProjection (proj : List (String × Nat)) (rec : Rec) : Except Exc Rec :=
  if (proj.any fun p => p.1 != "_id" && p.2 != 0)
      && (proj.any fun p => p.1 != "_id" && p.2 == 0) then
    .error .mixedProjectionServerError
  else if proj.any (fun p => p.2 != 0) then
    .ok (rec.filter fun kv =>
      if kv.1 = "_id" then lookupProj proj "_id" != some 0
      else
        match lookupProj proj kv.1 with
        | some v => v != 0
        | none => false)
  else
    .ok (rec.filter fun kv => (lookupProj proj kv.1).isNone)

/-- Projection application when the projection may be absent (`None` means
return all fields). -/
def applyProjectionOpt : Option (List (String × Nat)) → Rec → Except Exc Rec
  | none, rec => .ok rec
  | some proj, rec => applyProjection proj rec

/-- Number of stored records carrying the given identifier. -/
def countId (store : List Rec) (v : BVal) : Nat :=
  (store.filter (fun r => lookupKey r "_id" == some v)).length

/-- Replace the first stored record whose `_id` equals `idv` with the given
replacement document; the stored record keeps its identifier. -/
def replaceFirstById (store : List Rec) (idv : BVal) (doc : Rec) : List Rec :=
  match store with
  | [] => []
  | r :: rest =>
    if lookupKey r "_id" == some idv then (("_id", idv) :: doc) :: rest
    else r :: replaceFirstById rest idv doc

/-- Result of the driver's `replace_one`, restricted to the parts the
repository reads. -/
structure ReplaceOneResult where
  upserted_id : Option BVal
deriving DecidableEq, Repr

/-- The driver's `replace_one(filter={_id: idv}, replacement, upsert=True)`
at its documented interface: when a record with the identifier exists it is
replaced in place and no upserted id is reported; otherwise the replacement
is inserted carrying the filter's identifier, which is reported as the
upserted id. -/
def replace_one (store : List Rec) (idv : BVal) (doc : Rec) :
    List Rec × ReplaceOneResult :=
  if store.any (fun r => lookupKey r "_id" == some idv) then
    (replaceFirstById store idv doc, ⟨none⟩)
  else
    (store ++ [("_id", idv) :: doc], ⟨some idv⟩)

/-- The driver's `insert_one` at its documented interface: the store assigns
a fresh identifier (supplied here as a parameter) and appends the record. -/
def insert_one (store : List Rec) (freshId : String) (doc : Rec) :
    List Rec × BVal :=
  (store ++ [("_id", .oid freshId) :: doc], .oid freshId)

end MongoStore

namespace MongoOdmManagers

open MongoOdmDocuments MongoStore

/-- The accumulated state of the `mongo_odm` generation's
`MongoBaseQueryManager`: equality filter, pagination bounds, and the
projection dict mapping a field name to `1` (include) or `0` (exclude).
The bound document class is carried separately as a schema argument where
an operation needs it. -/
structure MongoBaseQueryManager where
  _filter : Rec
  _limit : Option Nat
  _skip : Option Nat
  _projected_fields : Option (List (String × Nat))
deriving DecidableEq, Repr

/-- The zero builder produced by `__init__`. -/
def initManager : MongoBaseQueryManager :=
  { _filter := [], _limit := none, _skip := none, _projected_fields := none }

/-- `_clone`: builds a fresh manager and copies the filter dict
(`dict.copy`), the pagination bounds, and a shallow copy of the projection
dict.  In the value embedding a copy of a value is the value itself. -/
def _clone (self : MongoBaseQueryManager) : MongoBaseQueryManager := self

/-- Python `dict` update `d[k] = v`: overwrite in place (keeping the key's
position) when the key exists, append otherwise.  Embedded dicts have unique
keys, so overwriting the first occurrence is overwriting the occurrence. -/
def dictSet (d : List (String × Nat)) (k : String) (v : Nat) :
    List (String × Nat) :=
  match d with
  | [] => [(k, v)]
  | (k', v') :: rest => if k' = k then (k, v) :: rest else (k', v') :: dictSet rest k v

/-- Python `set(fields)` recast as a duplicate-free list keeping first
occurrences (a set's iteration order is unspecified; every use here writes
the same value for each member, so order is immaterial). -/
def pySet : List String → List String
  | [] => []
  | x :: rest => x :: (pySet rest).filter (fun y => y ≠ x)

/-- `MongoBaseQueryManager.only`: clones, then writes `1` into the cloned
projection dict for every requested field.  No schema validation is
performed.  Returns the method's result alongside the receiver's state
after the call. -/
def only (self : MongoBaseQueryManager) (fields : List String) :
    (Except Exc MongoBaseQueryManager) × MongoBaseQueryManager :=
  let fields_set := pySet fields
  let new_manager := _clone self
  let proj0 := new_manager._projected_fields.getD []
  let proj := fields_set.foldl (fun d f => dictSet d f 1) proj0
  (.ok { new_manager with _projected_fields := some proj }, self)

/-- `MongoBaseQueryManager.exclude`: raises `PrimaryKeyCantBeExcluded` when
the literal wire key `_id` is among the requested fields (before cloning);
otherwise clones and writes `0` into the cloned projection dict for every
requested field.  No schema validation is performed.  Returns the method's
result alongside the receiver's state after the call. -/
def exclude (self : MongoBaseQueryManager) (fields : List String) :
    (Except Exc MongoBaseQueryManager) × MongoBaseQueryManager :=
  if "_id" ∈ fields then (.error .primaryKeyCantBeExcluded, self)
  else
    let fields_set := pySet fields
    let new_manager := _clone self
    let proj0 := new_manager._projected_fields.getD []
    let proj := fields_set.foldl (fun d f => dictSet d f 0) proj0
    (.ok { new_manager with _projected_fields := some proj }, self)

/-- `MongoBaseQueryManager.filter`: clones and replaces the filter wholesale.
Returns the method's result alongside the receiver's state after the call. -/
def filter (self : MongoBaseQueryManager) (filter_kwargs : Rec) :
    (Except Exc MongoBaseQueryManager) × MongoBaseQueryManager :=
  (.ok { _clone self with _filter := filter_kwargs }, self)

/-- `MongoBaseQueryManager.limit`: clones and sets the limit. -/
def limit (self : MongoBaseQueryManager) (count : Nat) :
    (Except Exc MongoBaseQueryManager) × MongoBaseQueryManager :=
  (.ok { _clone self with _limit := some count }, self)

/-- `MongoBaseQueryManager.skip`: clones and sets the skip. -/
def skip (self : MongoBaseQueryManager) (skip_count : Nat) :
    (Except Exc MongoBaseQueryManager) × MongoBaseQueryManager :=
  (.ok { _clone self with _skip := some skip_count }, self)

/-- One configuration call of the builder's chainable interface. -/
inductive ConfigCall where
  | filter (kwargs : Rec)
  | only (fields : List String)
  | exclude (fields : List String)
  | limit (n : Nat)
  | skip (n : Nat)
deriving DecidableEq, Repr

/-- Dispatch one configuration call on a `mongo_odm` builder. -/
def applyCall (self : MongoBaseQueryManager) :
    ConfigCall → (Except Exc MongoBaseQueryManager) × MongoBaseQueryManager
  | .filter kw => filter self kw
  | .only fs => only self fs
  | .exclude fs => exclude self fs
  | .limit n => limit self n
  | .skip n => skip self n

/-- A finite chain of configuration calls, each applied to the previous
call's result; stops at the first raised exception. -/
def applyChain (self : MongoBaseQueryManager) :
    List ConfigCall → Except Exc MongoBaseQueryManager
  | [] => .ok self
  | c :: rest =>
    match (applyCall self c).1 with
    | .error e => .error e
    | .ok m => applyChain m rest

/-- `MongoBaseQueryManager.all`: the store returns the filter's matches in
natural (storage) order; `skip` is applied only when set, then `to_list`
caps the result at the limit when set; each raw record is projected and
materialized through `MongoDocument.construct` (`MongoCursor.to_list`). -/
def allQuery (schema : List FieldSpec) (store : List Rec)
    (self : MongoBaseQueryManager) : Except Exc (List Rec) :=
  let matched := store.filter (matchesFilter self._filter)
  let paged :=
    match self._skip with
    | some s =>
      match self._limit with
      | some n => (matched.drop s).take n
      | none => matched.drop s
    | none =>
      match self._limit with
      | some n => matched.take n
      | none => matched
  mapMExcept (fun r => do construct schema (← applyProjectionOpt self._projected_fields r)) paged

/-- `MongoBaseQueryManager.first`: `find_one` with filter and projection
returns the first match or nothing; a found record is materialized through
`MongoDocument.construct`. -/
def firstQuery (schema : List FieldSpec) (store : List Rec)
    (self : MongoBaseQueryManager) : Except Exc (Option Rec) :=
  match store.find? (matchesFilter self._filter) with
  | none => .ok none
  | some r => do
    let projected ← applyProjectionOpt self._projected_fields r
    let document ← construct schema projected
    pure (some document)

/-- `MongoBaseQueryManager.count`: counts the matches, applying skip and
limit as count parameters when set. -/
def countQuery (store : List Rec) (self : MongoBaseQueryManager) : Nat :=
  let matched := (store.filter (matchesFilter self._filter)).length
  let afterSkip :=
    match self._skip with
    | some s => matched - s
    | none => matched
  match self._limit with
  | some n => min n afterSkip
  | none => afterSkip

/-- Python `dict.pop(k)` restricted to a present key: drop the entry. -/
def dictPop (d : Rec) (k : String) : Rec :=
  d.filter (fun kv => kv.1 ≠ k)

/-- Python `dict` update `d[k] = v` on records: overwrite in place when the
key exists, append otherwise. -/
def dictSetVal (d : Rec) (k : String) (v : BVal) : Rec :=
  match d with
  | [] => [(k, v)]
  | (k', v') :: rest => if k' = k then (k, v) :: rest else (k', v') :: dictSetVal rest k v

/-- The identifier-rewriting prefix of `MongoBaseQueryManager.get`: when the
kwargs contain the application-layer key `id`, its value is moved to the
wire key `_id`; a string value is pushed through `bson.ObjectId(...)`,
which raises `bson.errors.InvalidId` for anything but 24 hexadecimal
characters.  A non-string value is moved unconverted. -/
def getConvertKwargs (kwargs : Rec) : Except Exc Rec :=
  match lookupKey kwargs "id" with
  | none => .ok kwargs
  | some v =>
    let kwargs1 := dictPop kwargs "id"
    match v with
    | .str s =>
      if MongoOdmFields.isValidObjectIdString s then
        .ok (dictSetVal kwargs1 "_id" (.oid s))
      else .error .bsonInvalidId
    | v => .ok (dictSetVal kwargs1 "_id" v)

/-- `MongoBaseQueryManager.get`: rewrite the kwargs, then `find_one` with
the rewritten kwargs as filter and the accumulated projection; no match
raises `DocumentDoestNotExists`.  The trailing validating construction of
the fetched record (`self._document_class(**result)`) is outside this
model: `get` returns the fetched projected record. -/
def get (store : List Rec) (self : MongoBaseQueryManager) (kwargs : Rec) :
    Except Exc Rec := do
  let kw ← getConvertKwargs kwargs
  match store.find? (matchesFilter kw) with
  | none => .error .documentDoesNotExist
  | some r => applyProjectionOpt self._projected_fields r

end MongoOdmManagers

namespace MotorOdmManagers

/-- The accumulated state of the `motor_odm` generation's
`MongoBaseQueryManager`: the bound type's field-name set
(`_all_document_fields`), the projected field set, the filter, and the
pagination bounds. -/
structure MongoBaseQueryManager where
  _all_document_fields : List String
  _projected_fields : List String
  _filter : Rec
  _limit : Option Nat
  _skip : Option Nat
deriving DecidableEq, Repr

/-- `MongoBaseQueryManager._check_fields_exist_in_document`: raises
`FieldNotFoundOnDocument` when any requested field is not declared on the
bound document type. -/
def _check_fields_exist_in_document (self : MongoBaseQueryManager)
    (fields : List String) : Option Exc :=
  if fields.any (fun f => f ∉ self._all_document_fields) then
    some .fieldNotFoundOnDocument
  else none

/-- `motor_odm`'s `only`: validates the fields against the schema, then
overwrites the projected-field set in place and returns the receiver.
Returns the method's result alongside the receiver's state after the call. -/
def only (self : MongoBaseQueryManager) (fields : List String) :
    (Except Exc MongoBaseQueryManager) × MongoBaseQueryManager :=
  match _check_fields_exist_in_document self fields with
  | some e => (.error e, self)
  | none =>
    let self' := { self with _projected_fields := MongoOdmManagers.pySet fields }
    (.ok self', self')

/-- `motor_odm`'s `exclude`: validates the fields against the schema, then
overwrites the projected-field set in place with the set difference
`all fields minus requested fields` and returns the receiver. -/
def exclude (self : MongoBaseQueryManager) (fields : List String) :
    (Except Exc MongoBaseQueryManager) × MongoBaseQueryManager :=
  match _check_fields_exist_in_document self fields with
  | some e => (.error e, self)
  | none =>
    let self' := { self with
      _projected_fields := self._all_document_fields.filter (fun f => f ∉ fields) }
    (.ok self', self')

/-- `motor_odm`'s `filter`: overwrites the filter in place and returns the
receiver. -/
def filter (self : MongoBaseQueryManager) (filter_kwargs : Rec) :
    (Except Exc MongoBaseQueryManager) × MongoBaseQueryManager :=
  let self' := { self with _filter := filter_kwargs }
  (.ok self', self')

end MotorOdmManagers

namespace MongoOdmDocuments

open MongoStore MongoOdmFields

/-- A live document instance as `MongoDocument.save` sees it: the value of
its `id` field (`None` while unpersisted, embedded as `.null`) and the rest
of its serialized field mapping (`self.dict(...)` minus the popped `id`
entry; manager-valued fields are already excluded by `dict`). -/
structure DocInstance where
  id : BVal
  payload : Rec
deriving DecidableEq, Repr

/-- `MongoDocument.save`: serialize, pop the identifier out of the payload;
with a present (truthy) identifier passing `ObjectId.is_valid`, do an
upsert-style `replace_one` keyed by it and adopt a reported upserted id;
otherwise `insert_one` and adopt the store-assigned identifier
(`freshId` stands for the identifier the store would assign). -/
def save (store : List Rec) (freshId : String) (self : DocInstance) :
    List Rec × DocInstance :=
  let json_document := self.payload
  if pyTruthy self.id && objectIdIsValid self.id then
    let result := replace_one store self.id json_document
    match result.2.upserted_id with
    | some u => (result.1, { self with id := u })
    | none => (result.1, self)
  else
    let result := insert_one store freshId json_document
    (result.1, { self with id := result.2 })

end MongoOdmDocuments

/-! ## Helper lemmas about dicts, projections and reachable builder states -/

theorem lookupProj_dictSet (d : List (String × Nat)) (k : String) (v : Nat)
    (q : String) :
    MongoStore.lookupProj (MongoOdmManagers.dictSet d k v) q
      = if q = k then some v else MongoStore.lookupProj d q := by
  induction d with
  | nil =>
    by_cases h : q = k
    · simp [MongoOdmManagers.dictSet, MongoStore.lookupProj, h]
    · have h' : k ≠ q := fun hh => h hh.symm
      simp [MongoOdmManagers.dictSet, MongoStore.lookupProj, h, h']
  | cons p rest ih =>
    obtain ⟨k1, v1⟩ := p
    by_cases h1 : k1 = k
    · subst h1
      by_cases h2 : q = k1
      · subst h2
        simp [MongoOdmManagers.dictSet, MongoStore.lookupProj]
      · have h2' : k1 ≠ q := fun hh => h2 hh.symm
        simp [MongoOdmManagers.dictSet, MongoStore.lookupProj, h2, h2']
    · by_cases h2 : k1 = q
      · have hqk : ¬ q = k := fun hh => h1 (h2.trans hh)
        simp [MongoOdmManagers.dictSet, MongoStore.lookupProj, h1, h2, hqk]
      · simp [MongoOdmManagers.dictSet, MongoStore.lookupProj, h1, h2, ih]

theorem lookupProj_foldlSet (fs : List String) (d : List (String × Nat))
    (v : Nat) (q : String) :
    MongoStore.lookupProj
        (fs.foldl (fun acc f => MongoOdmManagers.dictSet acc f v) d) q
      = if q ∈ fs then some v else MongoStore.lookupProj d q := by
  induction fs generalizing d with
  | nil => simp
  | cons f rest ih =>
    simp only [List.foldl_cons, ih, lookupProj_dictSet]
    by_cases h : q ∈ rest
    · simp [h]
    · by_cases h2 : q = f <;> simp [h, h2]

theorem mem_pySet (q : String) (fs : List String) :
    q ∈ MongoOdmManagers.pySet fs ↔ q ∈ fs := by
  induction fs with
  | nil => simp [MongoOdmManagers.pySet]
  | cons f rest ih =>
    simp only [MongoOdmManagers.pySet, List.mem_cons, List.mem_filter]
    constructor
    · rintro (h | ⟨h1, _⟩)
      · exact .inl h
      · exact .inr (ih.1 h1)
    · rintro (h | h)
      · exact .inl h
      · by_cases hq : q = f
        · exact .inl hq
        · right
          exact ⟨ih.2 h, by simp [hq]⟩

theorem lookupProj_mem (proj : List (String × Nat)) (k : String) (w : Nat)
    (h : MongoStore.lookupProj proj k = some w) : (k, w) ∈ proj := by
  induction proj with
  | nil => simp [MongoStore.lookupProj] at h
  | cons p rest ih =>
    obtain ⟨k1, v1⟩ := p
    simp only [MongoStore.lookupProj] at h
    split at h
    · rename_i heq
      cases h
      subst heq
      exact List.mem_cons_self _ _
    · exact List.mem_cons_of_mem _ (ih h)

theorem lookupKey_filter_true (p : String × BVal → Bool) (rec : Rec) (k : String)
    (hp : ∀ v, p (k, v) = true) :
    lookupKey (rec.filter p) k = lookupKey rec k := by
  induction rec with
  | nil => rfl
  | cons kv rest ih =>
    obtain ⟨k1, v1⟩ := kv
    by_cases hk : k1 = k
    · subst hk
      simp [List.filter, hp v1, lookupKey]
    · cases hpv : p (k1, v1) <;> simp [List.filter, hpv, lookupKey, hk, ih]

theorem lookupKey_filter_false (p : String × BVal → Bool) (rec : Rec) (k : String)
    (hp : ∀ v, p (k, v) = false) :
    lookupKey (rec.filter p) k = none := by
  induction rec with
  | nil => rfl
  | cons kv rest ih =>
    obtain ⟨k1, v1⟩ := kv
    by_cases hk : k1 = k
    · subst hk
      simp [List.filter, hp v1, lookupKey, ih]
    · cases hpv : p (k1, v1) <;> simp [List.filter, hpv, lookupKey, hk, ih]

/-- A builder state whose projection dict, when present, holds no explicit
exclusion entry for the wire identifier key. -/
def noIdExclusion (m : MongoOdmManagers.MongoBaseQueryManager) : Prop :=
  ∀ proj, m._projected_fields = some proj →
    MongoStore.lookupProj proj "_id" ≠ some 0

theorem applyCall_noIdExclusion (b m : MongoOdmManagers.MongoBaseQueryManager)
    (c : MongoOdmManagers.ConfigCall) (hb : noIdExclusion b)
    (h : (MongoOdmManagers.applyCall b c).1 = .ok m) : noIdExclusion m := by
  cases c with
  | filter kw =>
    simp only [MongoOdmManagers.applyCall, MongoOdmManagers.filter,
      MongoOdmManagers._clone, Except.ok.injEq] at h
    subst h
    exact hb
  | limit n =>
    simp only [MongoOdmManagers.applyCall, MongoOdmManagers.limit,
      MongoOdmManagers._clone, Except.ok.injEq] at h
    subst h
    exact hb
  | skip n =>
    simp only [MongoOdmManagers.applyCall, MongoOdmManagers.skip,
      MongoOdmManagers._clone, Except.ok.injEq] at h
    subst h
    exact hb
  | only fs =>
    simp only [MongoOdmManagers.applyCall, MongoOdmManagers.only,
      MongoOdmManagers._clone, Except.ok.injEq] at h
    subst h
    intro proj hproj
    simp only [Option.some.injEq] at hproj
    subst hproj
    rw [lookupProj_foldlSet]
    by_cases hmem : "_id" ∈ MongoOdmManagers.pySet fs
    · simp [hmem]
    · simp only [hmem, if_false, reduceIte]
      cases hpf : b._projected_fields with
      | none => simp [hpf, MongoStore.lookupProj]
      | some p0 => simpa [hpf] using hb p0 hpf
  | exclude fs =>
    by_cases hid : "_id" ∈ fs
    · simp [MongoOdmManagers.applyCall, MongoOdmManagers.exclude, hid] at h
    · simp only [MongoOdmManagers.applyCall, MongoOdmManagers.exclude, hid,
        if_false, MongoOdmManagers._clone, Except.ok.injEq, reduceIte] at h
      subst h
      intro proj hproj
      simp only [Option.some.injEq] at hproj
      subst hproj
      rw [lookupProj_foldlSet]
      have hmem : "_id" ∉ MongoOdmManagers.pySet fs := by
        rw [mem_pySet]
        exact hid
      simp only [hmem, if_false, reduceIte]
      cases hpf : b._projected_fields with
      | none => simp [hpf, MongoStore.lookupProj]
      | some p0 => simpa [hpf] using hb p0 hpf

theorem applyChain_noIdExclusion (calls : List MongoOdmManagers.ConfigCall) :
    ∀ b m : MongoOdmManagers.MongoBaseQueryManager, noIdExclusion b →
      MongoOdmManagers.applyChain b calls = .ok m → noIdExclusion m := by
  induction calls with
  | nil =>
    intro b m hb h
    simp only [MongoOdmManagers.applyChain, Except.ok.injEq] at h
    subst h
    exact hb
  | cons c rest ih =>
    intro b m hb h
    simp only [MongoOdmManagers.applyChain] at h
    cases hc : (MongoOdmManagers.applyCall b c).1 with
    | error e => rw [hc] at h; cases h
    | ok b' =>
      rw [hc] at h
      exact ih b' m (applyCall_noIdExclusion b b' c hb hc) h

theorem applyProjection_keeps_id (proj : List (String × Nat)) (rec out : Rec)
    (v : BVal) (hnz : MongoStore.lookupProj proj "_id" ≠ some 0)
    (hap : MongoStore.applyProjection proj rec = .ok out)
    (hid : lookupKey rec "_id" = some v) :
    lookupKey out "_id" = some v := by
  simp only [MongoStore.applyProjection] at hap
  split at hap
  · cases hap
  · split at hap
    · -- inclusion mode: the `_id` entry's keep-predicate is `!= some 0`
      cases hap
      rw [← hid]
      apply lookupKey_filter_true
      intro w
      simp [hnz]
    · -- exclusion mode: every projection value is 0, so `_id` is unlisted
      cases hap
      rename_i hnoincl
      have hnone : MongoStore.lookupProj proj "_id" = none := by
        cases hlp : MongoStore.lookupProj proj "_id" with
        | none => rfl
        | some w =>
          exfalso
          have hmem := lookupProj_mem proj "_id" w hlp
          have : ¬ (proj.any fun p => p.2 != 0) = true := hnoincl
          rw [List.any_eq_true] at this
          push_neg at this
          have hw := this ("_id", w) hmem
          simp only [bne_iff_ne, ne_eq, Decidable.not_not] at hw
          subst hw
          exact hnz hlp
      rw [← hid]
      apply lookupKey_filter_true
      intro w
      simp [hnone]

/-! ## Claim theorems -/

/-- C10: `configure` with a non-null client and a null database name raises
`ImproperlyConfigured` but is not atomic: the client has already been stored
when the exception is raised, so `get_motor_client()` afterwards succeeds
and returns that client while `get_db_name()` still raises
`ImproperlyConfigured` (for a state with no database name configured). -/
theorem configure_not_atomic (st : MongoOdmConfig.ConfigState) (c : Nat)
    (hdb : st.dbName = none) :
    (MongoOdmConfig.configure st (some c) none).2 = some Exc.improperlyConfigured ∧
    MongoOdmConfig.get_motor_client (MongoOdmConfig.configure st (some c) none).1
      = .ok c ∧
    MongoOdmConfig.get_db_name (MongoOdmConfig.configure st (some c) none).1
      = .error Exc.improperlyConfigured := by
  refine ⟨rfl, rfl, ?_⟩
  simp [MongoOdmConfig.configure, MongoOdmConfig.get_db_name, hdb]

/-- C10 witness: the non-atomic `configure` behavior at the initial
(unconfigured) state with client handle `7`. -/
theorem configure_not_atomic_witness :
    (MongoOdmConfig.configure MongoOdmConfig.initialConfig (some 7) none).2
      = some Exc.improperlyConfigured ∧
    MongoOdmConfig.get_motor_client
      (MongoOdmConfig.configure MongoOdmConfig.initialConfig (some 7) none).1
      = .ok 7 ∧
    MongoOdmConfig.get_db_name
      (MongoOdmConfig.configure MongoOdmConfig.initialConfig (some 7) none).1
      = .error Exc.improperlyConfigured :=
  configure_not_atomic MongoOdmConfig.initialConfig 7 rfl

/-- C9 counterexample: a document type named `ProductItem` declared without
a collection-name override binds to collection `product_item` — the
snake-case form is NOT pluralized, so the claimed `product_items` is wrong. -/
theorem collection_name_not_pluralized :
    MongoOdmDocuments._get_config ⟨some 1, some "db"⟩ none "ProductItem"
      = .ok (some "product_item", some "db") ∧
    "product_item" ≠ "product_items" := by
  constructor
  · simp [MongoOdmDocuments._get_config, MongoOdmConfig.get_db_name,
      MongoOdmUtils.to_snake_case, MongoOdmUtils.subCapLower,
      MongoOdmUtils.subLowerCap, MongoOdmUtils.pyLower, MongoOdmUtils.isUpperAZ,
      MongoOdmUtils.isLowerAZ, MongoOdmUtils.isLowerOrDigit, Except.map]
  · decide

/-- C9 amended: for every document type declared without a `Meta` override,
the collection name the type binds to is the (singular) snake-case form of
the type name, and the database name is the process-wide configured name. -/
theorem collection_name_snake_case (st : MongoOdmConfig.ConfigState)
    (name db : String) (hdb : st.dbName = some db) :
    MongoOdmDocuments._get_config st none name
      = .ok (some (MongoOdmUtils.to_snake_case name), some db) := by
  simp [MongoOdmDocuments._get_config, MongoOdmConfig.get_db_name, hdb, Except.map]

/-- C9 amended witness: `ProductItem` with database name `db` resolves to
collection `product_item`. -/
theorem collection_name_snake_case_witness :
    MongoOdmDocuments._get_config ⟨some 1, some "db"⟩ none "ProductItem"
      = .ok (some (MongoOdmUtils.to_snake_case "ProductItem"), some "db") :=
  collection_name_snake_case ⟨some 1, some "db"⟩ "ProductItem" "db" rfl

/-- C8 counterexample: the claim says every `id` argument that is neither a
native identifier nor a 24-hex string raises `InvalidFieldType` before any
transport call.  The code does neither: the integer `5` (not a string, not
an `ObjectId`) passes the conversion step unconverted and untouched, and the
lookup then consults the store (two different stores give different
outcomes, so a transport call is issued); a malformed string raises the raw
`bson.errors.InvalidId`, which is a different exception class than
`InvalidFieldType`. -/
theorem get_malformed_id_counterexample :
    MongoOdmManagers.getConvertKwargs [("id", .nat 5)] = .ok [("_id", .nat 5)] ∧
    MongoOdmManagers.get [[("_id", .nat 5)]] MongoOdmManagers.initManager
      [("id", .nat 5)] = .ok [("_id", .nat 5)] ∧
    MongoOdmManagers.get [] MongoOdmManagers.initManager [("id", .nat 5)]
      = .error Exc.documentDoesNotExist ∧
    MongoOdmManagers.getConvertKwargs [("id", .str "xyz")]
      = .error Exc.bsonInvalidId ∧
    Exc.bsonInvalidId ≠ Exc.invalidFieldType := by
  exact ⟨rfl, rfl, rfl, rfl, by decide⟩

/-- C8 amended: in `get(id=...)` a string argument that is not 24 hex
characters raises `bson.errors.InvalidId` (not `InvalidFieldType`) at the
point of conversion, before any transport call (the outcome is independent
of the store); a valid 24-hex string is converted to the native identifier;
a non-string non-identifier value is passed through to the filter
unconverted and the lookup proceeds to the store.  `InvalidFieldType` is
raised by the identifier codec only on the pydantic validation path
(`PrimaryID.validate`). -/
theorem get_id_conversion (s t : String) (n : Nat)
    (hs : MongoOdmFields.isValidObjectIdString s = false)
    (ht : MongoOdmFields.isValidObjectIdString t = true) :
    MongoOdmManagers.getConvertKwargs [("id", .str s)] = .error Exc.bsonInvalidId ∧
    (∀ store self, MongoOdmManagers.get store self [("id", .str s)]
      = .error Exc.bsonInvalidId) ∧
    MongoOdmManagers.getConvertKwargs [("id", .str t)] = .ok [("_id", .oid t)] ∧
    MongoOdmManagers.getConvertKwargs [("id", .nat n)] = .ok [("_id", .nat n)] ∧
    MongoOdmFields.PrimaryID.validate (.str s) = .error Exc.invalidFieldType := by
  refine ⟨?_, ?_, ?_, rfl, ?_⟩
  · simp [MongoOdmManagers.getConvertKwargs, lookupKey, hs]
  · intro store self
    simp only [MongoOdmManagers.get, MongoOdmManagers.getConvertKwargs, lookupKey,
      hs, if_true, if_false, Bool.false_eq_true, reduceIte]
    rfl
  · simp [MongoOdmManagers.getConvertKwargs, MongoOdmManagers.dictPop,
      MongoOdmManagers.dictSetVal, lookupKey, ht]
  · simp [MongoOdmFields.PrimaryID.validate, MongoOdmFields.pyStr, hs]

/-- C8 amended witness: the conversion behavior at the malformed string
`"xyz"`, the valid string `"5349b4ddd2781d08c09890f3"`, and the integer 5. -/
theorem get_id_conversion_witness :
    MongoOdmFields.isValidObjectIdString "xyz" = false ∧
    MongoOdmFields.isValidObjectIdString "5349b4ddd2781d08c09890f3" = true ∧
    MongoOdmManagers.getConvertKwargs [("id", .str "xyz")]
      = .error Exc.bsonInvalidId ∧
    MongoOdmManagers.getConvertKwargs [("id", .str "5349b4ddd2781d08c09890f3")]
      = .ok [("_id", .oid "5349b4ddd2781d08c09890f3")] ∧
    MongoOdmManagers.getConvertKwargs [("id", .nat 5)] = .ok [("_id", .nat 5)] := by
  have h := get_id_conversion "xyz" "5349b4ddd2781d08c09890f3" 5
    (by decide) (by decide)
  exact ⟨by decide, by decide, h.1, h.2.2.1, h.2.2.2.1⟩

/-- C2 counterexample: the `mongo_odm` generation's builder performs no
schema validation in `only`/`exclude` at all.  With a builder bound to any
document type, requesting the undeclared field name `bogus` raises nothing:
`only` returns a fresh builder including `bogus` and `exclude` returns a
fresh builder excluding it. -/
theorem projection_no_validation_counterexample :
    (MongoOdmManagers.only MongoOdmManagers.initManager ["bogus"]).1
      = .ok ⟨[], none, none, some [("bogus", 1)]⟩ ∧
    (MongoOdmManagers.exclude MongoOdmManagers.initManager ["bogus"]).1
      = .ok ⟨[], none, none, some [("bogus", 0)]⟩ :=
  ⟨rfl, rfl⟩

/-- C2 amended: only the `motor_odm` generation validates projection fields:
its `only` and `exclude` raise `FieldNotFoundOnDocument` synchronously
(before touching the builder state, and without any store access — the
embedded calls take no store) whenever a requested field is not declared on
the bound document type.  The `mongo_odm` generation's `only`/`exclude`
never raise `FieldNotFoundOnDocument`. -/
theorem projection_validation_split (mm : MotorOdmManagers.MongoBaseQueryManager)
    (self : MongoOdmManagers.MongoBaseQueryManager) (fields : List String)
    (f : String) (hf : f ∈ fields) (hnf : f ∉ mm._all_document_fields) :
    (MotorOdmManagers.only mm fields).1 = .error Exc.fieldNotFoundOnDocument ∧
    (MotorOdmManagers.exclude mm fields).1 = .error Exc.fieldNotFoundOnDocument ∧
    (MotorOdmManagers.only mm fields).2 = mm ∧
    (MotorOdmManagers.exclude mm fields).2 = mm ∧
    (MongoOdmManagers.only self fields).1 ≠ .error Exc.fieldNotFoundOnDocument ∧
    (MongoOdmManagers.exclude self fields).1 ≠ .error Exc.fieldNotFoundOnDocument := by
  have hcheck : MotorOdmManagers._check_fields_exist_in_document mm fields
      = some Exc.fieldNotFoundOnDocument := by
    have hany : (fields.any fun g => decide (g ∉ mm._all_document_fields)) = true := by
      rw [List.any_eq_true]
      exact ⟨f, hf, by simp [hnf]⟩
    simp only [MotorOdmManagers._check_fields_exist_in_document, hany, if_true]
  refine ⟨?_, ?_, ?_, ?_, ?_, ?_⟩
  · simp [MotorOdmManagers.only, hcheck]
  · simp [MotorOdmManagers.exclude, hcheck]
  · simp [MotorOdmManagers.only, hcheck]
  · simp [MotorOdmManagers.exclude, hcheck]
  · simp [MongoOdmManagers.only]
  · by_cases hid : "_id" ∈ fields <;> simp [MongoOdmManagers.exclude, hid]

/-- C2 amended witness: a `motor_odm` builder bound to fields `id`, `name`
rejects the undeclared field `bogus` from both `only` and `exclude` without
touching its state, while the `mongo_odm` builder accepts it. -/
theorem projection_validation_split_witness :
    ("bogus" : String) ∈ ["bogus"] ∧
    (MotorOdmManagers.only ⟨["id", "name"], ["id", "name"], [], none, none⟩
      ["bogus"]).1 = .error Exc.fieldNotFoundOnDocument ∧
    (MongoOdmManagers.only MongoOdmManagers.initManager ["bogus"]).1
      ≠ .error Exc.fieldNotFoundOnDocument := by
  have h := projection_validation_split
    ⟨["id", "name"], ["id", "name"], [], none, none⟩
    MongoOdmManagers.initManager ["bogus"] "bogus" (by decide) (by decide)
  exact ⟨by decide, h.1, h.2.2.2.2.1⟩

/-- C5 counterexample: the `motor_odm` generation's `filter` mutates the
receiver in place: after `b.filter(x=1)` the original builder `b` no longer
holds its original (empty) filter, so a second chain branching from `b`
does not observe `b`'s original state. -/
theorem motor_filter_mutates_receiver :
    (MotorOdmManagers.filter ⟨["x"], ["x"], [], none, none⟩ [("x", .nat 1)]).2
      ≠ ⟨["x"], ["x"], [], none, none⟩ := by
  decide

/-- C5 amended: the `mongo_odm` generation's builder is clone-per-call:
every configuration call (`filter`, `only`, `exclude`, `limit`, `skip`)
leaves the receiver's accumulated state unchanged, and the returned builder
carries the receiver's state with only the configured component changed
(`_clone` copies the filter dict, both pagination bounds and the projection
dict).  The `motor_odm` generation mutates the receiver in place. -/
theorem clone_per_call_no_mutation (b : MongoOdmManagers.MongoBaseQueryManager)
    (c : MongoOdmManagers.ConfigCall) :
    (MongoOdmManagers.applyCall b c).2 = b ∧
    (∀ m, (MongoOdmManagers.applyCall b c).1 = .ok m →
      m._filter = (match c with | .filter kw => kw | _ => b._filter) ∧
      m._limit = (match c with | .limit n => some n | _ => b._limit) ∧
      m._skip = (match c with | .skip n => some n | _ => b._skip) ∧
      (match c with
       | .filter _ | .limit _ | .skip _ => m._projected_fields = b._projected_fields
       | _ => True)) := by
  cases c with
  | filter kw =>
    refine ⟨rfl, ?_⟩
    intro m hm
    simp only [MongoOdmManagers.applyCall, MongoOdmManagers.filter,
      MongoOdmManagers._clone, Except.ok.injEq] at hm
    subst hm
    exact ⟨rfl, rfl, rfl, rfl⟩
  | only fs =>
    refine ⟨rfl, ?_⟩
    intro m hm
    simp only [MongoOdmManagers.applyCall, MongoOdmManagers.only,
      MongoOdmManagers._clone, Except.ok.injEq] at hm
    subst hm
    exact ⟨rfl, rfl, rfl, trivial⟩
  | exclude fs =>
    by_cases hid : "_id" ∈ fs
    · refine ⟨by simp [MongoOdmManagers.applyCall, MongoOdmManagers.exclude, hid], ?_⟩
      intro m hm
      simp [MongoOdmManagers.applyCall, MongoOdmManagers.exclude, hid] at hm
    · refine ⟨by simp [MongoOdmManagers.applyCall, MongoOdmManagers.exclude, hid], ?_⟩
      intro m hm
      simp only [MongoOdmManagers.applyCall, MongoOdmManagers.exclude, hid,
        if_false, MongoOdmManagers._clone, Except.ok.injEq, reduceIte] at hm
      subst hm
      exact ⟨rfl, rfl, rfl, trivial⟩
  | limit n =>
    refine ⟨rfl, ?_⟩
    intro m hm
    simp only [MongoOdmManagers.applyCall, MongoOdmManagers.limit,
      MongoOdmManagers._clone, Except.ok.injEq] at hm
    subst hm
    exact ⟨rfl, rfl, rfl, rfl⟩
  | skip n =>
    refine ⟨rfl, ?_⟩
    intro m hm
    simp only [MongoOdmManagers.applyCall, MongoOdmManagers.skip,
      MongoOdmManagers._clone, Except.ok.injEq] at hm
    subst hm
    exact ⟨rfl, rfl, rfl, rfl⟩

/-- C5 amended witness: applying `filter(x=1)` to the zero builder leaves
the receiver untouched and the returned builder differs only in its filter. -/
theorem clone_per_call_no_mutation_witness :
    (MongoOdmManagers.applyCall MongoOdmManagers.initManager
      (.filter [("x", .nat 1)])).2 = MongoOdmManagers.initManager ∧
    (⟨[("x", .nat 1)], none, none, none⟩ :
      MongoOdmManagers.MongoBaseQueryManager)._limit = none := by
  have h := clone_per_call_no_mutation MongoOdmManagers.initManager
    (.filter [("x", .nat 1)])
  have h2 := h.2 ⟨[("x", .nat 1)], none, none, none⟩ rfl
  exact ⟨h.1, h2.2.1⟩

/-- C3 counterexample: the identifier field is exposed as `id` at the
application layer, but `exclude` only rejects the literal wire key `_id`:
`exclude("id")` raises nothing and produces the exclusion entry `id ↦ 0`. -/
theorem exclude_app_layer_id_counterexample :
    (MongoOdmManagers.exclude MongoOdmManagers.initManager ["id"]).1
      = .ok ⟨[], none, none, some [("id", 0)]⟩ :=
  rfl

/-- C3 amended: `exclude` raises `PrimaryKeyCantBeExcluded` synchronously,
before cloning and without any transport call, exactly when the field list
names the literal wire key `_id` (the application-layer name `id` is not
rejected).  Consequently no builder state reachable from the zero builder
holds an explicit `_id ↦ 0` exclusion entry, and applying any reachable
projection to a stored record retains the record's identifier. -/
theorem exclude_wire_id_policy (self m : MongoOdmManagers.MongoBaseQueryManager)
    (fields : List String) (calls : List MongoOdmManagers.ConfigCall)
    (proj : List (String × Nat)) (rec out : Rec) (v : BVal)
    (hin : "_id" ∈ fields)
    (hchain : MongoOdmManagers.applyChain MongoOdmManagers.initManager calls
      = .ok m)
    (hproj : m._projected_fields = some proj)
    (hap : MongoStore.applyProjection proj rec = .ok out)
    (hid : lookupKey rec "_id" = some v) :
    (MongoOdmManagers.exclude self fields).1 = .error Exc.primaryKeyCantBeExcluded ∧
    (MongoOdmManagers.exclude self fields).2 = self ∧
    MongoStore.lookupProj proj "_id" ≠ some 0 ∧
    lookupKey out "_id" = some v := by
  have hinit : noIdExclusion MongoOdmManagers.initManager := by
    intro p hp
    simp [MongoOdmManagers.initManager] at hp
  have hreach := applyChain_noIdExclusion calls MongoOdmManagers.initManager m
    hinit hchain
  have hnz := hreach proj hproj
  exact ⟨by simp [MongoOdmManagers.exclude, hin],
    by simp [MongoOdmManagers.exclude, hin],
    hnz,
    applyProjection_keeps_id proj rec out v hnz hap hid⟩

/-- C3 amended witness: `exclude("_id")` raises on the zero builder; the
reachable state after `exclude("a")` holds projection `a ↦ 0`, which applied
to a stored record keeps the record's identifier. -/
theorem exclude_wire_id_policy_witness :
    (MongoOdmManagers.exclude MongoOdmManagers.initManager ["_id"]).1
      = .error Exc.primaryKeyCantBeExcluded ∧
    lookupKey [("_id", BVal.oid "aaaaaaaaaaaaaaaaaaaaaaaa")] "_id"
      = some (BVal.oid "aaaaaaaaaaaaaaaaaaaaaaaa") := by
  have h := exclude_wire_id_policy MongoOdmManagers.initManager
    ⟨[], none, none, some [("a", 0)]⟩ ["_id"]
    [MongoOdmManagers.ConfigCall.exclude ["a"]] [("a", 0)]
    [("_id", BVal.oid "aaaaaaaaaaaaaaaaaaaaaaaa"), ("a", BVal.nat 1)]
    [("_id", BVal.oid "aaaaaaaaaaaaaaaaaaaaaaaa")]
    (BVal.oid "aaaaaaaaaaaaaaaaaaaaaaaa")
    (by decide) rfl rfl rfl rfl
  exact ⟨h.1, h.2.2.2⟩

/-- C4 counterexample: the chain `only("a")` then `exclude("b")` from the
zero builder is reachable and produces the projection `a ↦ 1, b ↦ 0`, which
mixes inclusion and exclusion of two non-identifier fields in one builder
state; the external store rejects that projection at execution time. -/
theorem projection_mixing_counterexample :
    MongoOdmManagers.applyChain MongoOdmManagers.initManager
      [.only ["a"], .exclude ["b"]]
      = .ok ⟨[], none, none, some [("a", 1), ("b", 0)]⟩ ∧
    MongoStore.applyProjection [("a", 1), ("b", 0)] [("a", BVal.nat 1)]
      = .error Exc.mixedProjectionServerError :=
  ⟨rfl, rfl⟩

/-- A configuration call that is an `only` projection request. -/
def isOnlyCall : MongoOdmManagers.ConfigCall → Bool
  | .only _ => true
  | _ => false

/-- A configuration call that is an `exclude` projection request. -/
def isExcludeCall : MongoOdmManagers.ConfigCall → Bool
  | .exclude _ => true
  | _ => false

theorem dictSet_all_values (d : List (String × Nat)) (k : String) (v : Nat)
    (hd : ∀ p ∈ d, p.2 = v) : ∀ p ∈ MongoOdmManagers.dictSet d k v, p.2 = v := by
  induction d with
  | nil =>
    intro p hp
    simp only [MongoOdmManagers.dictSet, List.mem_singleton] at hp
    subst hp
    rfl
  | cons q rest ih =>
    obtain ⟨k1, v1⟩ := q
    intro p hp
    simp only [MongoOdmManagers.dictSet] at hp
    split at hp
    · rcases List.mem_cons.1 hp with h | h
      · subst h; rfl
      · exact hd _ (List.mem_cons_of_mem _ h)
    · rcases List.mem_cons.1 hp with h | h
      · subst h
        exact hd _ (List.mem_cons_self _ _)
      · exact ih (fun q hq => hd _ (List.mem_cons_of_mem _ hq)) _ h

theorem foldlSet_all_values (fs : List String) (d : List (String × Nat))
    (v : Nat) (hd : ∀ p ∈ d, p.2 = v) :
    ∀ p ∈ fs.foldl (fun acc f => MongoOdmManagers.dictSet acc f v) d, p.2 = v := by
  induction fs generalizing d with
  | nil => simpa using hd
  | cons f rest ih =>
    simp only [List.foldl_cons]
    exact ih _ (dictSet_all_values d f v hd)

/-- A builder state whose projection dict, when present, maps every listed
field to the single direction `v`. -/
def pureProjection (v : Nat) (m : MongoOdmManagers.MongoBaseQueryManager) : Prop :=
  ∀ proj, m._projected_fields = some proj → ∀ p ∈ proj, p.2 = v

theorem applyCall_pureProjection (v : Nat)
    (b m : MongoOdmManagers.MongoBaseQueryManager)
    (c : MongoOdmManagers.ConfigCall) (hb : pureProjection v b)
    (hc : (isOnlyCall c = true → v = 1) ∧ (isExcludeCall c = true → v = 0))
    (h : (MongoOdmManagers.applyCall b c).1 = .ok m) : pureProjection v m := by
  cases c with
  | filter kw =>
    simp only [MongoOdmManagers.applyCall, MongoOdmManagers.filter,
      MongoOdmManagers._clone, Except.ok.injEq] at h
    subst h
    exact hb
  | limit n =>
    simp only [MongoOdmManagers.applyCall, MongoOdmManagers.limit,
      MongoOdmManagers._clone, Except.ok.injEq] at h
    subst h
    exact hb
  | skip n =>
    simp only [MongoOdmManagers.applyCall, MongoOdmManagers.skip,
      MongoOdmManagers._clone, Except.ok.injEq] at h
    subst h
    exact hb
  | only fs =>
    have hv : v = 1 := hc.1 rfl
    subst hv
    simp only [MongoOdmManagers.applyCall, MongoOdmManagers.only,
      MongoOdmManagers._clone, Except.ok.injEq] at h
    subst h
    intro proj hproj
    simp only [Option.some.injEq] at hproj
    subst hproj
    apply foldlSet_all_values
    intro p hp
    cases hpf : b._projected_fields with
    | none => simp [hpf] at hp
    | some p0 =>
      rw [hpf] at hp
      exact hb p0 hpf p hp
  | exclude fs =>
    have hv : v = 0 := hc.2 rfl
    subst hv
    by_cases hid : "_id" ∈ fs
    · simp [MongoOdmManagers.applyCall, MongoOdmManagers.exclude, hid] at h
    · simp only [MongoOdmManagers.applyCall, MongoOdmManagers.exclude, hid,
        if_false, MongoOdmManagers._clone, Except.ok.injEq, reduceIte] at h
      subst h
      intro proj hproj
      simp only [Option.some.injEq] at hproj
      subst hproj
      apply foldlSet_all_values
      intro p hp
      cases hpf : b._projected_fields with
      | none => simp [hpf] at hp
      | some p0 =>
        rw [hpf] at hp
        exact hb p0 hpf p hp

theorem applyChain_pureProjection (v : Nat)
    (calls : List MongoOdmManagers.ConfigCall) :
    ∀ b m : MongoOdmManagers.MongoBaseQueryManager, pureProjection v b →
      (∀ c ∈ calls, (isOnlyCall c = true → v = 1) ∧ (isExcludeCall c = true → v = 0)) →
      MongoOdmManagers.applyChain b calls = .ok m → pureProjection v m := by
  induction calls with
  | nil =>
    intro b m hb _ h
    simp only [MongoOdmManagers.applyChain, Except.ok.injEq] at h
    subst h
    exact hb
  | cons c rest ih =>
    intro b m hb hcs h
    simp only [MongoOdmManagers.applyChain] at h
    cases hc : (MongoOdmManagers.applyCall b c).1 with
    | error e => rw [hc] at h; cases h
    | ok b' =>
      rw [hc] at h
      have hb' := applyCall_pureProjection v b b' c hb
        (hcs c (List.mem_cons_self _ _)) hc
      exact ih b' m hb' (fun d hd => hcs d (List.mem_cons_of_mem _ hd)) h

/-- C4 amended: the mutual-exclusivity invariant fails for mixed chains (see
the counterexample), but holds directionally: a chain from the zero builder
that never calls `exclude` yields a projection that is absent or a pure
inclusion dict (every value `1`), and one that never calls `only` yields a
projection that is absent or a pure exclusion dict (every value `0`). -/
theorem projection_purity (calls : List MongoOdmManagers.ConfigCall)
    (m : MongoOdmManagers.MongoBaseQueryManager)
    (h : MongoOdmManagers.applyChain MongoOdmManagers.initManager calls = .ok m) :
    ((∀ c ∈ calls, isExcludeCall c = false) →
      ∀ proj, m._projected_fields = some proj → ∀ p ∈ proj, p.2 = 1) ∧
    ((∀ c ∈ calls, isOnlyCall c = false) →
      ∀ proj, m._projected_fields = some proj → ∀ p ∈ proj, p.2 = 0) := by
  have hinit : ∀ v, pureProjection v MongoOdmManagers.initManager := by
    intro v p hp
    simp [MongoOdmManagers.initManager] at hp
  constructor
  · intro hnoexc
    apply applyChain_pureProjection 1 calls MongoOdmManagers.initManager m
      (hinit 1) ?_ h
    intro c hc
    exact ⟨fun _ => rfl, fun he => absurd he (by simp [hnoexc c hc])⟩
  · intro hnoonly
    apply applyChain_pureProjection 0 calls MongoOdmManagers.initManager m
      (hinit 0) ?_ h
    intro c hc
    exact ⟨fun he => absurd he (by simp [hnoonly c hc]), fun _ => rfl⟩

/-- C4 amended witness: the exclude-free chain `only("a")`, `only("b")`
yields the pure inclusion projection `a ↦ 1, b ↦ 1`. -/
theorem projection_purity_witness :
    MongoOdmManagers.applyChain MongoOdmManagers.initManager
      [.only ["a"], .only ["b"]] = .ok ⟨[], none, none, some [("a", 1), ("b", 1)]⟩ ∧
    ∀ p ∈ [("a", 1), ("b", 1)], (p : String × Nat).2 = 1 := by
  refine ⟨rfl, ?_⟩
  have h := projection_purity [.only ["a"], .only ["b"]]
    ⟨[], none, none, some [("a", 1), ("b", 1)]⟩ rfl
  exact h.1 (by decide) [("a", 1), ("b", 1)] rfl

theorem countId_eq_zero_of_any_false (store : List Rec) (v : BVal)
    (h : store.any (fun r => lookupKey r "_id" == some v) = false) :
    MongoStore.countId store v = 0 := by
  rw [List.any_eq_false] at h
  simp only [MongoStore.countId, List.length_eq_zero, List.filter_eq_nil_iff]
  intro r hr
  simpa using h r hr

theorem countId_pos_of_any_true (store : List Rec) (v : BVal)
    (h : store.any (fun r => lookupKey r "_id" == some v) = true) :
    1 ≤ MongoStore.countId store v := by
  rw [List.any_eq_true] at h
  obtain ⟨r, hr, hpr⟩ := h
  have : r ∈ store.filter (fun r => lookupKey r "_id" == some v) :=
    List.mem_filter.2 ⟨hr, hpr⟩
  have := List.length_pos.2 (List.ne_nil_of_mem this)
  simpa [MongoStore.countId] using this

theorem replaceFirstById_length (store : List Rec) (v : BVal) (doc : Rec) :
    (MongoStore.replaceFirstById store v doc).length = store.length := by
  induction store with
  | nil => rfl
  | cons r rest ih =>
    simp only [MongoStore.replaceFirstById]
    split <;> simp [ih]

theorem countId_replaceFirstById (store : List Rec) (v : BVal) (doc : Rec) :
    store.any (fun r => lookupKey r "_id" == some v) = true →
    MongoStore.countId (MongoStore.replaceFirstById store v doc) v
      = MongoStore.countId store v := by
  induction store with
  | nil => intro h; cases h
  | cons r rest ih =>
    intro h
    simp only [MongoStore.replaceFirstById]
    cases hr : (lookupKey r "_id" == some v) with
    | true =>
      simp only [if_true, reduceIte]
      have hnew : (lookupKey (("_id", v) :: doc) "_id" == some v) = true := by
        simp [lookupKey]
      simp [MongoStore.countId, List.filter, hnew, hr]
    | false =>
      simp only [Bool.false_eq_true, if_false, reduceIte]
      have hrest : rest.any (fun r => lookupKey r "_id" == some v) = true := by
        simpa [hr] using h
      have hr' := ih hrest
      simp only [MongoStore.countId, List.filter, hr] at hr' ⊢
      exact hr'

theorem countId_append (a b : List Rec) (v : BVal) :
    MongoStore.countId (a ++ b) v
      = MongoStore.countId a v + MongoStore.countId b v := by
  simp [MongoStore.countId, List.filter_append]

/-- One `save` of a document whose identifier is present and valid: the
identifier is unchanged (also on the upsert path, where the reported
upserted id is the filter's id), exactly one record with that identifier
exists afterwards, and when a record already existed nothing was inserted. -/
theorem save_valid_id (store : List Rec) (d : MongoOdmDocuments.DocInstance)
    (f : String)
    (hid : (MongoOdmFields.pyTruthy d.id && MongoOdmFields.objectIdIsValid d.id)
      = true)
    (huniq : MongoStore.countId store d.id ≤ 1) :
    (MongoOdmDocuments.save store f d).2.id = d.id ∧
    MongoStore.countId (MongoOdmDocuments.save store f d).1 d.id = 1 ∧
    (MongoStore.countId store d.id = 1 →
      (MongoOdmDocuments.save store f d).1.length = store.length) := by
  cases hany : store.any (fun r => lookupKey r "_id" == some d.id) with
  | true =>
    have hs : MongoOdmDocuments.save store f d
        = (MongoStore.replaceFirstById store d.id d.payload, d) := by
      simp [MongoOdmDocuments.save, hid, MongoStore.replace_one, hany]
    rw [hs]
    have hcnt := countId_replaceFirstById store d.id d.payload hany
    have h1 := countId_pos_of_any_true store d.id hany
    refine ⟨rfl, ?_, fun _ => replaceFirstById_length store d.id d.payload⟩
    rw [hcnt]
    omega
  | false =>
    have hs : MongoOdmDocuments.save store f d
        = (store ++ [("_id", d.id) :: d.payload], { d with id := d.id }) := by
      simp [MongoOdmDocuments.save, hid, MongoStore.replace_one, hany]
    rw [hs]
    have h0 := countId_eq_zero_of_any_false store d.id hany
    refine ⟨rfl, ?_, ?_⟩
    · rw [countId_append, h0]
      simp [MongoStore.countId, List.filter, lookupKey]
    · intro h1
      rw [h0] at h1
      cases h1

/-- C6: saving a document twice with a present, valid, unchanged identifier
performs an update, not a second insert: the document's identifier is the
same after each call, exactly one record with that identifier exists in
storage after each call, and the second call does not grow the store.
(`f1`, `f2` stand for the identifiers the store would assign on an insert;
the uniqueness hypothesis is the store's `_id`-uniqueness invariant.) -/
theorem save_twice_updates (store : List Rec) (d : MongoOdmDocuments.DocInstance)
    (f1 f2 : String)
    (hid : (MongoOdmFields.pyTruthy d.id && MongoOdmFields.objectIdIsValid d.id)
      = true)
    (huniq : MongoStore.countId store d.id ≤ 1) :
    ∃ s1 d1 s2 d2,
      MongoOdmDocuments.save store f1 d = (s1, d1) ∧
      MongoOdmDocuments.save s1 f2 d1 = (s2, d2) ∧
      d1.id = d.id ∧ d2.id = d.id ∧
      MongoStore.countId s1 d.id = 1 ∧
      MongoStore.countId s2 d.id = 1 ∧
      s2.length = s1.length := by
  obtain ⟨hid1, hcnt1, _⟩ := save_valid_id store d f1 hid huniq
  set r1 := MongoOdmDocuments.save store f1 d with hr1
  have hid1' : (MongoOdmFields.pyTruthy r1.2.id
      && MongoOdmFields.objectIdIsValid r1.2.id) = true := by
    rw [hid1]
    exact hid
  have huniq1 : MongoStore.countId r1.1 r1.2.id ≤ 1 := by
    rw [hid1, hcnt1]
  obtain ⟨hid2, hcnt2, hlen2⟩ := save_valid_id r1.1 r1.2 f2 hid1'
    huniq1
  refine ⟨r1.1, r1.2, (MongoOdmDocuments.save r1.1 f2 r1.2).1,
    (MongoOdmDocuments.save r1.1 f2 r1.2).2, rfl, rfl, hid1, ?_, hcnt1, ?_, ?_⟩
  · rw [hid2, hid1]
  · rw [hid1] at hcnt2
    exact hcnt2
  · apply hlen2
    rw [hid1]
    exact hcnt1

/-- C6 witness: saving a concrete document with a valid identifier twice
into an empty store: the first save upserts one record, the second replaces
it; the identifier never changes and the store holds exactly one record. -/
theorem save_twice_updates_witness :
    (MongoOdmFields.pyTruthy (BVal.oid "5349b4ddd2781d08c09890f3")
      && MongoOdmFields.objectIdIsValid (BVal.oid "5349b4ddd2781d08c09890f3"))
      = true ∧
    ∃ s1 d1 s2 d2,
      MongoOdmDocuments.save []
        "ffffffffffffffffffffffff"
        ⟨BVal.oid "5349b4ddd2781d08c09890f3", [("name", BVal.str "ramzi")]⟩
        = (s1, d1) ∧
      MongoOdmDocuments.save s1 "eeeeeeeeeeeeeeeeeeeeeeee" d1 = (s2, d2) ∧
      d1.id = BVal.oid "5349b4ddd2781d08c09890f3" ∧
      d2.id = BVal.oid "5349b4ddd2781d08c09890f3" ∧
      MongoStore.countId s1 (BVal.oid "5349b4ddd2781d08c09890f3") = 1 ∧
      MongoStore.countId s2 (BVal.oid "5349b4ddd2781d08c09890f3") = 1 ∧
      s2.length = s1.length := by
  refine ⟨by decide, ?_⟩
  exact save_twice_updates []
    ⟨BVal.oid "5349b4ddd2781d08c09890f3", [("name", BVal.str "ramzi")]⟩
    "ffffffffffffffffffffffff" "eeeeeeeeeeeeeeeeeeeeeeee" (by decide) (by decide)

theorem mapMExcept_length (f : α → Except Exc β) (l : List α) (out : List β)
    (h : mapMExcept f l = .ok out) : out.length = l.length := by
  induction l generalizing out with
  | nil =>
    simp only [mapMExcept, Except.ok.injEq] at h
    subst h
    rfl
  | cons a rest ih =>
    simp only [mapMExcept, bind, Except.bind] at h
    cases hf : f a with
    | error e => rw [hf] at h; cases h
    | ok b =>
      rw [hf] at h
      cases ht : mapMExcept f rest with
      | error e => rw [ht] at h; cases h
      | ok tail =>
        rw [ht] at h
        simp only [pure, Except.pure, Except.ok.injEq] at h
        subst h
        simp [ih tail ht]

/-- C7: with `m` stored documents matching the builder's filter, configured
skip `s` and limit `n`, `all()` returns exactly `min n (m - s)` documents
(truncated subtraction realizes `max 0 (m − s)`); the embedded store yields
matches in storage order and the skip/take pipeline preserves that order. -/
theorem all_skip_limit_count (schema : List MongoOdmDocuments.FieldSpec)
    (store : List Rec) (fil : Rec) (proj : Option (List (String × Nat)))
    (s n : Nat) (out : List Rec)
    (h : MongoOdmManagers.allQuery schema store ⟨fil, some n, some s, proj⟩
      = .ok out) :
    out.length
      = min n ((store.filter (MongoStore.matchesFilter fil)).length - s) := by
  simp only [MongoOdmManagers.allQuery] at h
  have hlen := mapMExcept_length _ _ _ h
  rw [hlen, List.length_take, List.length_drop]

/-- C7 witness: ten stored documents, `limit(9).skip(2)`: `all()` returns
exactly eight documents. -/
theorem all_skip_limit_count_witness :
    MongoOdmManagers.allQuery [] [[("_id", BVal.nat 0)], [("_id", BVal.nat 1)],
      [("_id", BVal.nat 2)], [("_id", BVal.nat 3)], [("_id", BVal.nat 4)],
      [("_id", BVal.nat 5)], [("_id", BVal.nat 6)], [("_id", BVal.nat 7)],
      [("_id", BVal.nat 8)], [("_id", BVal.nat 9)]] ⟨[], some 9, some 2, none⟩
      = .ok (List.replicate 8 []) ∧
    (List.replicate 8 ([] : Rec)).length = 8 := by
  have hq : MongoOdmManagers.allQuery [] [[("_id", BVal.nat 0)],
      [("_id", BVal.nat 1)], [("_id", BVal.nat 2)], [("_id", BVal.nat 3)],
      [("_id", BVal.nat 4)], [("_id", BVal.nat 5)], [("_id", BVal.nat 6)],
      [("_id", BVal.nat 7)], [("_id", BVal.nat 8)], [("_id", BVal.nat 9)]]
      ⟨[], some 9, some 2, none⟩ = .ok (List.replicate 8 []) := by
    simp [MongoOdmManagers.allQuery, MongoStore.matchesFilter,
      MongoStore.applyProjectionOpt, mapMExcept,
      MongoOdmDocuments.construct, List.filter, List.replicate,
      bind, Except.bind, pure, Except.pure]
  have hcount := all_skip_limit_count [] _ [] none 2 9 (List.replicate 8 []) hq
  exact ⟨hq, by simpa using hcount⟩

theorem construct_cons_ok (name wireAlias : String) (required : Bool)
    (dflt : BVal) (nested : Option (List MongoOdmDocuments.FieldSpec))
    (rest : List MongoOdmDocuments.FieldSpec) (values out : Rec)
    (hok : MongoOdmDocuments.construct
      (.mk name wireAlias required dflt nested :: rest) values = .ok out) :
    ∃ v0 tail, out = (name, v0) :: tail ∧
      MongoOdmDocuments.construct rest values = .ok tail ∧
      ((lookupKey values wireAlias = none ∧ v0 = dflt) ∨
       (∃ rv, lookupKey values wireAlias = some rv ∧
         ((∃ sub m nd, nested = some sub ∧ rv = BVal.doc m ∧
             MongoOdmDocuments.construct sub m = .ok nd ∧ v0 = BVal.doc nd) ∨
          (nested = none ∧
            v0 = if rv = BVal.null ∧ required = false then dflt else rv)))) := by
  simp only [MongoOdmDocuments.construct] at hok
  split at hok
  · -- alias absent from the raw mapping
    rename_i hlk
    cases hrec : MongoOdmDocuments.construct rest values with
    | error e => simp [hrec, Except.map] at hok
    | ok tail =>
      simp only [hrec, Except.map, Except.ok.injEq] at hok
      subst hok
      exact ⟨dflt, tail, rfl, rfl, .inl ⟨hlk, rfl⟩⟩
  · -- alias present
    rename_i rv hlk
    cases nested with
    | some sub =>
      cases rv with
      | doc m =>
        cases hnd : MongoOdmDocuments.construct sub m with
        | error e => simp [hnd, bind, Except.bind] at hok
        | ok nd =>
          cases hrec : MongoOdmDocuments.construct rest values with
          | error e => simp [hnd, hrec, bind, Except.bind] at hok
          | ok tail =>
            simp only [hnd, hrec, bind, Except.bind, pure, Except.pure,
              Except.ok.injEq] at hok
            subst hok
            exact ⟨BVal.doc nd, tail, rfl, rfl,
              .inr ⟨BVal.doc m, hlk, .inl ⟨sub, m, nd, rfl, rfl, hnd, rfl⟩⟩⟩
      | null => cases hok
      | nat n => cases hok
      | str s => cases hok
      | oid s => cases hok
    | none =>
      cases hrec : MongoOdmDocuments.construct rest values with
      | error e => simp [hrec, Except.map] at hok
      | ok tail =>
        simp only [hrec, Except.map, Except.ok.injEq] at hok
        subst hok
        exact ⟨_, tail, rfl, rfl, .inr ⟨rv, hlk, .inr ⟨rfl, rfl⟩⟩⟩

/-- Materializer, absent case: a schema field whose wire alias is absent
from the raw mapping holds its declared default in the constructed
document (field names are unique in a schema). -/
theorem construct_absent_default :
    ∀ (s : List MongoOdmDocuments.FieldSpec) (values out : Rec)
      (f : MongoOdmDocuments.FieldSpec),
      MongoOdmDocuments.construct s values = .ok out → f ∈ s →
      (s.map MongoOdmDocuments.FieldSpec.name).Nodup →
      lookupKey values f.wireAlias = none →
      lookupKey out f.name = some f.dflt := by
  intro s
  induction s with
  | nil =>
    intro values out f _ hmem
    cases hmem
  | cons g rest ih =>
    intro values out f hok hmem hnodup habs
    obtain ⟨gname, galias, greq, gdflt, gnested⟩ := g
    obtain ⟨v0, tail, hout, hrec, hval⟩ :=
      construct_cons_ok gname galias greq gdflt gnested rest values out hok
    subst hout
    rcases List.mem_cons.1 hmem with hfg | hfr
    · subst hfg
      rcases hval with ⟨_, hv0⟩ | ⟨rv, hsome, _⟩
      · subst hv0
        simp [lookupKey, MongoOdmDocuments.FieldSpec.name,
          MongoOdmDocuments.FieldSpec.dflt]
      · rw [MongoOdmDocuments.FieldSpec.wireAlias] at habs
        rw [habs] at hsome
        cases hsome
    · have hgname : gname ∉ rest.map MongoOdmDocuments.FieldSpec.name := by
        have := hnodup
        simp only [List.map_cons, List.nodup_cons,
          MongoOdmDocuments.FieldSpec.name] at this
        exact this.1
      have hne : gname ≠ f.name := by
        intro heq
        exact hgname (heq ▸ List.mem_map_of_mem _ hfr)
      simp only [lookupKey, hne, if_false, reduceIte]
      apply ih values tail f hrec hfr ?_ habs
      have := hnodup
      simp only [List.map_cons, List.nodup_cons] at this
      exact this.2

/-- Materializer, present case: a plain (non-document-typed) schema field
whose wire alias is present in the raw mapping holds the raw value, unless
the raw value is null and the field optional. -/
theorem construct_present_value :
    ∀ (s : List MongoOdmDocuments.FieldSpec) (values out : Rec)
      (f : MongoOdmDocuments.FieldSpec) (v : BVal),
      MongoOdmDocuments.construct s values = .ok out → f ∈ s →
      (s.map MongoOdmDocuments.FieldSpec.name).Nodup →
      f.nested = none → lookupKey values f.wireAlias = some v →
      ¬(v = BVal.null ∧ f.required = false) →
      lookupKey out f.name = some v := by
  intro s
  induction s with
  | nil =>
    intro values out f v _ hmem
    cases hmem
  | cons g rest ih =>
    intro values out f v hok hmem hnodup hplain hsome hnn
    obtain ⟨gname, galias, greq, gdflt, gnested⟩ := g
    obtain ⟨v0, tail, hout, hrec, hval⟩ :=
      construct_cons_ok gname galias greq gdflt gnested rest values out hok
    subst hout
    rcases List.mem_cons.1 hmem with hfg | hfr
    · subst hfg
      simp only [MongoOdmDocuments.FieldSpec.wireAlias,
        MongoOdmDocuments.FieldSpec.nested,
        MongoOdmDocuments.FieldSpec.required] at hplain hsome hnn
      subst hplain
      rcases hval with ⟨hnone, _⟩ | ⟨rv, hsome', hbranch⟩
      · rw [hsome] at hnone
        cases hnone
      · rw [hsome] at hsome'
        cases hsome'
        rcases hbranch with ⟨sub, _, _, hsub, _⟩ | ⟨_, hv0⟩
        · cases hsub
        · rw [if_neg hnn] at hv0
          subst hv0
          simp [lookupKey, MongoOdmDocuments.FieldSpec.name]
    · have hgname : gname ∉ rest.map MongoOdmDocuments.FieldSpec.name := by
        have := hnodup
        simp only [List.map_cons, List.nodup_cons,
          MongoOdmDocuments.FieldSpec.name] at this
        exact this.1
      have hne : gname ≠ f.name := by
        intro heq
        exact hgname (heq ▸ List.mem_map_of_mem _ hfr)
      simp only [lookupKey, hne, if_false, reduceIte]
      apply ih values tail f v hrec hfr ?_ hplain hsome hnn
      have := hnodup
      simp only [List.map_cons, List.nodup_cons] at this
      exact this.2

theorem applyProjection_inclusion (proj : List (String × Nat)) (rec : Rec)
    (hpure : ∀ p ∈ proj, p.2 = 1) (hne : proj ≠ []) :
    MongoStore.applyProjection proj rec = .ok (rec.filter fun kv =>
      if kv.1 = "_id" then MongoStore.lookupProj proj "_id" != some 0
      else
        match MongoStore.lookupProj proj kv.1 with
        | some v => v != 0
        | none => false) := by
  have hmixed : (proj.any fun p => p.1 != "_id" && p.2 == 0) = false := by
    rw [List.any_eq_false]
    intro p hp
    simp [hpure p hp]
  have hincl : (proj.any fun p => p.2 != 0) = true := by
    cases proj with
    | nil => exact absurd rfl hne
    | cons q rest =>
      rw [List.any_eq_true]
      exact ⟨q, List.mem_cons_self _ _,
        by simp [hpure q (List.mem_cons_self _ _)]⟩
  simp [MongoStore.applyProjection, hmixed, hincl]

/-- C1 amended: (i) `construct` fills every schema field whose wire alias is
absent from the raw mapping with the field's declared default (as claimed);
for a nonempty inclusion projection `only(F)` followed by `first()` on a
store whose first record is `rec`: (ii) every declared field whose alias is
neither in `F` nor the identifier key holds its schema default, and
(iii) every plain (non-document-typed) field whose alias is in `F` holds its
stored value — unless the stored value is null and the field optional, in
which case the declared default is substituted (the documented
null-substitution of the materializer, refuting the unconditional
"stored value" reading; see the counterexample). -/
theorem construct_defaults_and_projection
    (schema : List MongoOdmDocuments.FieldSpec) (values vout : Rec)
    (f : MongoOdmDocuments.FieldSpec) (F : List String)
    (m : MongoOdmManagers.MongoBaseQueryManager)
    (rec out : Rec) (storeRest : List Rec) (v : BVal)
    (hnodup : (schema.map MongoOdmDocuments.FieldSpec.name).Nodup)
    (hF : F ≠ [])
    (hm : (MongoOdmManagers.only MongoOdmManagers.initManager F).1 = .ok m)
    (hfq : MongoOdmManagers.firstQuery schema (rec :: storeRest) m
      = .ok (some out))
    (hf : f ∈ schema) :
    (MongoOdmDocuments.construct schema values = .ok vout →
      lookupKey values f.wireAlias = none →
      lookupKey vout f.name = some f.dflt) ∧
    (f.wireAlias ∉ F → f.wireAlias ≠ "_id" →
      lookupKey out f.name = some f.dflt) ∧
    (f.wireAlias ∈ F → f.nested = none → lookupKey rec f.wireAlias = some v →
      ¬(v = BVal.null ∧ f.required = false) →
      lookupKey out f.name = some v) := by
  have hm' : (⟨[], none, none,
      some ((MongoOdmManagers.pySet F).foldl
        (fun d g => MongoOdmManagers.dictSet d g 1) [])⟩ :
      MongoOdmManagers.MongoBaseQueryManager) = m := by
    simp only [MongoOdmManagers.only, MongoOdmManagers._clone,
      MongoOdmManagers.initManager, Except.ok.injEq] at hm
    exact hm
  subst hm'
  set projF := (MongoOdmManagers.pySet F).foldl
    (fun d g => MongoOdmManagers.dictSet d g 1) [] with hprojF
  have hlp : ∀ q, MongoStore.lookupProj projF q
      = if q ∈ F then some 1 else none := by
    intro q
    rw [hprojF, lookupProj_foldlSet]
    by_cases hq : q ∈ F
    · simp [hq, (mem_pySet q F).2 hq]
    · have : q ∉ MongoOdmManagers.pySet F := fun hh => hq ((mem_pySet q F).1 hh)
      simp [hq, this, MongoStore.lookupProj]
  have hpure : ∀ p ∈ projF, p.2 = 1 := by
    rw [hprojF]
    exact foldlSet_all_values _ [] 1 (by intro p hp; cases hp)
  have hneproj : projF ≠ [] := by
    obtain ⟨x, xs, rfl⟩ : ∃ x xs, F = x :: xs := by
      cases F with
      | nil => exact absurd rfl hF
      | cons x xs => exact ⟨x, xs, rfl⟩
    intro hnil
    have hx := hlp x
    rw [hnil] at hx
    simp [MongoStore.lookupProj] at hx
  simp only [MongoOdmManagers.firstQuery] at hfq
  have hfind : List.find? (MongoStore.matchesFilter []) (rec :: storeRest)
      = some rec := rfl
  rw [hfind] at hfq
  simp only [MongoStore.applyProjectionOpt] at hfq
  rw [applyProjection_inclusion projF rec hpure hneproj] at hfq
  simp only [bind, Except.bind] at hfq
  set projRec := rec.filter (fun kv =>
    if kv.1 = "_id" then MongoStore.lookupProj projF "_id" != some 0
    else
      match MongoStore.lookupProj projF kv.1 with
      | some w => w != 0
      | none => false) with hprojRec
  cases hcon : MongoOdmDocuments.construct schema projRec with
  | error e => rw [hcon] at hfq; cases hfq
  | ok doc =>
    rw [hcon] at hfq
    simp only [pure, Except.pure, Except.ok.injEq, Option.some.injEq] at hfq
    subst hfq
    refine ⟨?_, ?_, ?_⟩
    · intro hc habs
      exact construct_absent_default schema values vout f hc hf hnodup habs
    · intro hnotF hnotid
      have habs : lookupKey projRec f.wireAlias = none := by
        rw [hprojRec]
        apply lookupKey_filter_false
        intro w
        simp only [hnotid, if_false, reduceIte]
        rw [hlp f.wireAlias]
        simp [hnotF]
      exact construct_absent_default schema projRec doc f hcon hf hnodup habs
    · intro hinF hplain hsome hnn
      have hkeep : lookupKey projRec f.wireAlias = lookupKey rec f.wireAlias := by
        rw [hprojRec]
        apply lookupKey_filter_true
        intro w
        by_cases hida : f.wireAlias = "_id"
        · rw [hida] at hinF ⊢
          simp only [if_true, reduceIte]
          rw [hlp "_id"]
          simp [hinF]
        · simp only [hida, if_false, reduceIte]
          rw [hlp f.wireAlias]
          simp [hinF]
      rw [hsome] at hkeep
      exact construct_present_value schema projRec doc f v hcon hf hnodup
        hplain hkeep hnn

theorem firstQuery_cons_eval (schema : List MongoOdmDocuments.FieldSpec)
    (rec : Rec) (storeRest : List Rec)
    (self : MongoOdmManagers.MongoBaseQueryManager) (projected out : Rec)
    (hmatch : MongoStore.matchesFilter self._filter rec = true)
    (hproj : MongoStore.applyProjectionOpt self._projected_fields rec
      = .ok projected)
    (hcon : MongoOdmDocuments.construct schema projected = .ok out) :
    MongoOdmManagers.firstQuery schema (rec :: storeRest) self
      = .ok (some out) := by
  simp only [MongoOdmManagers.firstQuery, List.find?, hmatch, hproj, hcon,
    bind, Except.bind, pure, Except.pure]

/-- C1 counterexample: schema with an optional field `f` whose declared
default is `5`; the stored record holds `f = null`.  The inclusion
projection `only(["f"])` followed by `first()` returns a document in which
`f` holds the default `5`, not its stored value `null` — the materializer
replaces a null stored value of an optional field by the declared default,
so "every field in F holds its stored value" is false as stated. -/
theorem only_first_stored_value_counterexample :
    (MongoOdmManagers.only MongoOdmManagers.initManager ["f"]).1
      = .ok ⟨[], none, none, some [("f", 1)]⟩ ∧
    MongoOdmManagers.firstQuery
      [.mk "id" "_id" false BVal.null none, .mk "f" "f" false (BVal.nat 5) none]
      [[("_id", BVal.oid "aaaaaaaaaaaaaaaaaaaaaaaa"), ("f", BVal.null)]]
      ⟨[], none, none, some [("f", 1)]⟩
      = .ok (some [("id", BVal.oid "aaaaaaaaaaaaaaaaaaaaaaaa"),
        ("f", BVal.nat 5)]) ∧
    lookupKey [("_id", BVal.oid "aaaaaaaaaaaaaaaaaaaaaaaa"), ("f", BVal.null)]
      "f" = some BVal.null ∧
    BVal.nat 5 ≠ BVal.null := by
  refine ⟨rfl, ?_, rfl, by decide⟩
  exact firstQuery_cons_eval _ _ _ _
    [("_id", BVal.oid "aaaaaaaaaaaaaaaaaaaaaaaa"), ("f", BVal.null)] _
    rfl rfl (by simp [MongoOdmDocuments.construct, lookupKey, Except.map])

/-- C1 amended witness: schema `id/f/g` (defaults: null, `5`, `"d"`),
store `{_id: a…a, f: 7, g: "x"}`, projection `only(["f"])` then `first()`:
the non-projected field `g` holds its default `"d"` and the projected field
`f` holds its stored value `7`. -/
theorem construct_defaults_and_projection_witness :
    lookupKey [("id", BVal.oid "aaaaaaaaaaaaaaaaaaaaaaaa"), ("f", BVal.nat 7),
      ("g", BVal.str "d")] "g" = some (BVal.str "d") ∧
    lookupKey [("id", BVal.oid "aaaaaaaaaaaaaaaaaaaaaaaa"), ("f", BVal.nat 7),
      ("g", BVal.str "d")] "f" = some (BVal.nat 7) := by
  have hfq : MongoOdmManagers.firstQuery
      [.mk "id" "_id" false BVal.null none, .mk "f" "f" false (BVal.nat 5) none,
        .mk "g" "g" false (BVal.str "d") none]
      [[("_id", BVal.oid "aaaaaaaaaaaaaaaaaaaaaaaa"), ("f", BVal.nat 7),
        ("g", BVal.str "x")]]
      ⟨[], none, none, some [("f", 1)]⟩
      = .ok (some [("id", BVal.oid "aaaaaaaaaaaaaaaaaaaaaaaa"),
        ("f", BVal.nat 7), ("g", BVal.str "d")]) := by
    exact firstQuery_cons_eval _ _ _ _
      [("_id", BVal.oid "aaaaaaaaaaaaaaaaaaaaaaaa"), ("f", BVal.nat 7)] _
      rfl rfl (by simp [MongoOdmDocuments.construct, lookupKey, Except.map])
  have hnodup : (([.mk "id" "_id" false BVal.null none,
      .mk "f" "f" false (BVal.nat 5) none,
      .mk "g" "g" false (BVal.str "d") none] :
      List MongoOdmDocuments.FieldSpec).map
      MongoOdmDocuments.FieldSpec.name).Nodup := by
    simp [MongoOdmDocuments.FieldSpec.name]
  have hg := construct_defaults_and_projection
    [.mk "id" "_id" false BVal.null none, .mk "f" "f" false (BVal.nat 5) none,
      .mk "g" "g" false (BVal.str "d") none]
    [] [] (.mk "g" "g" false (BVal.str "d") none) ["f"]
    ⟨[], none, none, some [("f", 1)]⟩
    [("_id", BVal.oid "aaaaaaaaaaaaaaaaaaaaaaaa"), ("f", BVal.nat 7),
      ("g", BVal.str "x")]
    [("id", BVal.oid "aaaaaaaaaaaaaaaaaaaaaaaa"), ("f", BVal.nat 7),
      ("g", BVal.str "d")] []
    BVal.null hnodup (by decide) rfl hfq
    (List.mem_cons_of_mem _ (List.mem_cons_of_mem _ (List.mem_cons_self _ _)))
  have hfv := construct_defaults_and_projection
    [.mk "id" "_id" false BVal.null none, .mk "f" "f" false (BVal.nat 5) none,
      .mk "g" "g" false (BVal.str "d") none]
    [] [] (.mk "f" "f" false (BVal.nat 5) none) ["f"]
    ⟨[], none, none, some [("f", 1)]⟩
    [("_id", BVal.oid "aaaaaaaaaaaaaaaaaaaaaaaa"), ("f", BVal.nat 7),
      ("g", BVal.str "x")]
    [("id", BVal.oid "aaaaaaaaaaaaaaaaaaaaaaaa"), ("f", BVal.nat 7),
      ("g", BVal.str "d")] []
    (BVal.nat 7) hnodup (by decide) rfl hfq
    (List.mem_cons_of_mem _ (List.mem_cons_self _ _))
  constructor
  · exact hg.2.1 (by decide) (by decide)
  · exact hfv.2.2 (by decide) rfl rfl (by decide)
